import Mathlib

/-
Verification of the chunked-speech logic of src/components/InteractiveAvatar.tsx.

Strings are modelled as `List Char`.  The chunker `splitIntoChunks` is embedded
from the source:

  function splitIntoChunks(text: string): string[] {
    const words = text.split(/\s+/);
    const chunks: string[] = [];
    for (let i = 0; i < words.length; i += 8) {
      chunks.push(words.slice(i, i + 8).join(" "));
    }
    return chunks;
  }

JavaScript `String.prototype.split` with the regex `\s+` splits the string at
every maximal run of whitespace characters.  It keeps an empty field before a
leading run and after a trailing run, and the empty string yields `[""]`
(the regex finds no match, so the whole input is the single field).  The loop
groups the resulting field list into slices of at most 8, each rejoined with
single spaces; since `words` always has at least one element the loop body runs
at least once.
-/

abbrev Str := List Char

/-- Whitespace test for one character, the model of the regex class `\s`
restricted to the ASCII whitespace characters (space, tab, line feed,
vertical tab, form feed, carriage return).  The remaining Unicode code points
that `\s` matches behave identically for every theorem below, which never
depends on which characters are whitespace. -/
def isWS (c : Char) : Bool :=
  c == ' ' || c == '\t' || c == '\n' || c == '\x0b' || c == '\x0c' || c == '\r'

/-- Core of the model of `text.split(/\s+/)`, walking the characters left to
right.  The second argument is `some cur` while a field is being accumulated
(`cur` holds its characters in reverse) and `none` while inside a whitespace
run (whose further whitespace characters are consumed silently, so a maximal
run acts as one separator). -/
def splitWSGo : List Char → Option (List Char) → List Str
  | [], some cur => [cur.reverse]
  | [], none => [[]]
  | c :: cs, some cur =>
    if isWS c then cur.reverse :: splitWSGo cs none
    else splitWSGo cs (some (c :: cur))
  | c :: cs, none =>
    if isWS c then splitWSGo cs none
    else splitWSGo cs (some [c])

/-- Model of the JavaScript expression `text.split(/\s+/)`: the list of fields
between maximal whitespace runs, with an empty field kept at a boundary run and
`[""]` for the empty input. -/
def jsSplitWS (text : Str) : List Str :=
  splitWSGo text (some [])

/-- Model of the chunking loop `for (let i = 0; i < words.length; i += 8)`
taking `words.slice(i, i + 8)` each round: the input list cut into consecutive
groups of 8, with a final shorter group when fewer than 8 elements remain.
Written by recursion on eight cons cells so that it is structural. -/
def groupWords : List Str → List (List Str)
  | [] => []
  | a₁ :: a₂ :: a₃ :: a₄ :: a₅ :: a₆ :: a₇ :: a₈ :: rest =>
    [a₁, a₂, a₃, a₄, a₅, a₆, a₇, a₈] :: groupWords rest
  | l => [l]

/-- Model of `array.join(" ")` on a list of fields: the fields concatenated
with one space between consecutive fields, `[]` for the empty list. -/
def joinSpace : List Str → Str
  | [] => []
  | [w] => w
  | w :: ws => w ++ ' ' :: joinSpace ws

/-- The chunker `splitIntoChunks` of the source: split on whitespace runs with
JavaScript field semantics, group the fields by 8, and rejoin each group with
single spaces. -/
def splitIntoChunks (text : Str) : List Str :=
  (groupWords (jsSplitWS text)).map joinSpace

/-- Second definition for the refinement comparison of C1/C2, following the
spec's words rather than the source: the "whitespace-normalized token
sequence", i.e. the fields of the whitespace split with every empty token
discarded. -/
def specNormalizedTokens (text : Str) : List Str :=
  (jsSplitWS text).filter (fun w => !w.isEmpty)

/-
Playback model.  The component keeps, besides the chunk list, the state

  const chunkIndexRef = useRef(0);
  const [isSpeaking, setIsSpeaking] = useState(false);
  const [isInterrupted, setIsInterrupted] = useState(false);
  const [resumeRequested, setResumeRequested] = useState(false);

Read as React executes it, these four pieces of state are not equally shared.
`chunkIndexRef` is a ref: one live mutable cell, read and written by the
handlers and by the loop alike.  The three booleans are render state: a
handler invocation, and the `speakRemainingChunks` closure it invokes
synchronously, both read the values committed at the render that created
them, and a `setX` call only reaches later renders — it never changes the
values a running loop's closure already holds.  The embedding therefore
passes the loop the two flags its closure froze at launch (`fII`, `fRR`, for
`isInterrupted` and `resumeRequested`) together with the live index, and
keeps a separate record `PB` of the committed values that the handlers read
and write.  The observable behaviour of a run is its trace: the
`repeatMessage` calls issued and their resolutions, in program order (the
`isSpeaking` toggles around each call and the fixed one-second delay have no
observable effect on the trace).
-/

structure PB where
  chunkIndex : Nat
  isSpeaking : Bool
  isInterrupted : Bool
  resumeRequested : Bool
deriving DecidableEq

/-- Observable events of the speak loop: `call c` is the issuing of
`repeatMessage(c)` and `resolve c` the resolution of that awaited call. -/
inductive Ev where
  | call : Str → Ev
  | resolve : Str → Ev
deriving DecidableEq

/-- External actions of `handleInterrupt`: the `interrupt()` signal to the
avatar and the fire-and-forget `sendMessage(userInput)` to the text chat. -/
inductive ExtAct where
  | interruptSig : ExtAct
  | sendMsg : Str → ExtAct
deriving DecidableEq

/-- The flag effect of an accepted interruption on the committed state:
`setIsInterrupted(true); setResumeRequested(false)`. -/
def interruptEffect (s : PB) : PB :=
  { s with isInterrupted := true, resumeRequested := false }

/-- The handler `handleInterrupt(userInput)` of the source: a guarded no-op
unless currently speaking; otherwise it commits the interruption flags,
signals `interrupt()` to the avatar and forwards `userInput` to the text-chat
channel without awaiting it, in that order. -/
def handleInterrupt (userInput : Str) (s : PB) : PB × List ExtAct :=
  if s.isSpeaking then
    (interruptEffect s, [ExtAct.interruptSig, ExtAct.sendMsg userInput])
  else (s, [])

/-- The while loop of `speakRemainingChunks`, embedded over the suffix of the
chunk list that starts at the launch index (the loop reads
`chunks[chunkIndexRef.current]` and increments the ref by one each round, so
its iterations walk exactly that suffix; `speakRemainingChunks` below passes
`chunks.drop idx`).  Each round checks `if (isInterrupted && !resumeRequested)
break` at the chunk boundary — against `fII` and `fRR`, the flag values the
loop's render closure froze at launch, which no `setState` made during the
run can reach — then issues the speak call, awaits its resolution, increments
the shared index, waits the one-second delay, and continues.  The result is
the trace together with the final value of the shared index. -/
def speakLoopAux : List Str → Bool → Bool → Nat → List Ev × Nat
  | [], _, _, idx => ([], idx)
  | c :: rest, fII, fRR, idx =>
    if fII && !fRR then ([], idx)
    else
      let r := speakLoopAux rest fII fRR (idx + 1)
      (Ev.call c :: Ev.resolve c :: r.1, r.2)

/-- The function `speakRemainingChunks` of the source, launched with the
shared index at `idx` and with its closure holding `fII`, `fRR`: the while
loop over the remaining chunks.  (The trailing `setResumeRequested(false)`
touches only the committed flags; the callers below apply it.) -/
def speakRemainingChunks (chunks : List Str) (fII fRR : Bool) (idx : Nat) :
    List Ev × Nat :=
  speakLoopAux (chunks.drop idx) fII fRR idx

/-- The reset `startSpeaking` performs when its guard passes:
`setIsInterrupted(false); setResumeRequested(false)` on the committed flags
and `chunkIndexRef.current = 0` on the live ref. -/
def startReset (s : PB) : PB :=
  { s with isInterrupted := false, resumeRequested := false, chunkIndex := 0 }

/-- The handler `startSpeaking` of the source: a guarded no-op when the chunk
list is empty (`!chunks.length`) or already speaking; otherwise it applies
`startReset` and invokes `speakRemainingChunks`.  The invoked closure belongs
to the handler's own render, so the flags it froze are the committed values
`s.isInterrupted`, `s.resumeRequested` from before the reset — the reset's
`setState` half cannot reach it; only the zeroed ref does.  The returned
committed state has both flags false (the reset's writes and the loop-end
`setResumeRequested(false)`), `isSpeaking` back at false, and the index where
the loop left the ref. -/
def startSpeaking (chunks : List Str) (s : PB) : List Ev × PB :=
  if chunks.isEmpty || s.isSpeaking then ([], s)
  else
    let r := speakRemainingChunks chunks s.isInterrupted s.resumeRequested
      (startReset s).chunkIndex
    (r.1, { startReset s with chunkIndex := r.2, isSpeaking := false })

/-- The handler `resumeSpeaking` of the source: a guarded no-op unless
interrupted, not speaking, and the index short of the end; otherwise
`setResumeRequested(true); setIsInterrupted(false)` — commits that reach only
later renders — and an invocation of `speakRemainingChunks` whose closure
froze this render's committed values `s.isInterrupted`, `s.resumeRequested`,
not the just-set ones.  The returned committed state reflects the two
`setState` calls and the loop-end `setResumeRequested(false)`. -/
def resumeSpeaking (chunks : List Str) (s : PB) : List Ev × PB :=
  if !s.isInterrupted || s.isSpeaking || decide (chunks.length ≤ s.chunkIndex) then
    ([], s)
  else
    let r := speakRemainingChunks chunks s.isInterrupted s.resumeRequested
      s.chunkIndex
    (r.1, { s with isInterrupted := false, resumeRequested := false,
                   chunkIndex := r.2 })

/-- Test for a `call` event. -/
def isCallEv : Ev → Bool
  | Ev.call _ => true
  | Ev.resolve _ => false

/-- Number of `repeatMessage` calls issued in a trace. -/
def countCalls (tr : List Ev) : Nat :=
  tr.countP isCallEv

/-- The component state touched by the text input's `onChange` handler. -/
structure UIState where
  userContent : Str
  chunks : List Str
  pb : PB
deriving DecidableEq

/-- The `onChange` handler of the text input: store the new content, rechunk
it, reset the chunk index to zero and clear both interruption flags. -/
def onInputChange (input : Str) (u : UIState) : UIState :=
  { userContent := input
    chunks := splitIntoChunks input
    pb := { u.pb with chunkIndex := 0, isInterrupted := false,
                      resumeRequested := false } }

/-
Session-start model.  `startSessionV2` awaits `fetch("/api/get-access-token")`
and `response.text()`; the whole body sits in a try/catch whose catch logs the
error.  A network failure makes the fetch throw; an empty body makes the
explicit `if (!token) throw new Error("No access token")` fire (the empty
string is the only falsy string).  The fetch's outcome is the model's input,
and the observable behaviour is the ordered list of actions the body performs;
the avatar SDK calls themselves (`initAvatar`, `startAvatar`,
`startVoiceChat`) are external collaborators modelled as succeeding.
-/

inductive FetchResult where
  | networkError : FetchResult
  | ok : Str → FetchResult
deriving DecidableEq

/-- Observable actions of `startSessionV2`, in program order. -/
inductive SessAct where
  | fetchToken : SessAct
  | logError : SessAct
  | initAvatar : Str → SessAct
  | startAvatar : SessAct
  | startVoiceChat : SessAct
deriving DecidableEq

/-- The function `startSessionV2(isVoiceChat)` of the source: fetch the access
token; on a network error or an empty body, catch and log and do nothing
further; otherwise initialize the avatar with the token, start the avatar
session, and additionally start voice chat when requested. -/
def startSessionV2 (fr : FetchResult) (isVoiceChat : Bool) : List SessAct :=
  SessAct.fetchToken ::
    match fr with
    | FetchResult.networkError => [SessAct.logError]
    | FetchResult.ok token =>
      if token.isEmpty then [SessAct.logError]
      else
        [SessAct.initAvatar token, SessAct.startAvatar]
          ++ if isVoiceChat then [SessAct.startVoiceChat] else []

/-- Test for the session-start action. -/
def isStartAvatarAct : SessAct → Bool
  | SessAct.startAvatar => true
  | _ => false

/-- Test for the token-fetch action. -/
def isFetchAct : SessAct → Bool
  | SessAct.fetchToken => true
  | _ => false

/-- Whether a run of `startSessionV2` started the avatar session. -/
def sessionStarted (acts : List SessAct) : Bool :=
  acts.any isStartAvatarAct

/-- Scenario of the spec, checked concretely: the input
"a b c d e f g h i j" chunks into ["a b c d e f g h", "i j"], and starting
playback speaks chunk 0 and then chunk 1, in order, then idles. -/
theorem scenario_ten_words :
    splitIntoChunks ['a', ' ', 'b', ' ', 'c', ' ', 'd', ' ', 'e', ' ', 'f',
        ' ', 'g', ' ', 'h', ' ', 'i', ' ', 'j'] =
      [['a', ' ', 'b', ' ', 'c', ' ', 'd', ' ', 'e', ' ', 'f', ' ', 'g', ' ',
        'h'], ['i', ' ', 'j']]
    ∧ startSpeaking [['a'], ['b']] ⟨0, false, false, false⟩ =
      ([Ev.call ['a'], Ev.resolve ['a'], Ev.call ['b'], Ev.resolve ['b']],
       ⟨2, false, false, false⟩) := by decide

theorem splitWSGo_length_pos : ∀ (l : List Char) (o : Option (List Char)),
    1 ≤ (splitWSGo l o).length := by
  intro l
  induction l with
  | nil => intro o; cases o <;> simp [splitWSGo]
  | cons c cs ih =>
    intro o
    cases o with
    | none => cases hc : isWS c <;> simp [splitWSGo, hc, ih]
    | some cur => cases hc : isWS c <;> simp [splitWSGo, hc, ih]

theorem splitWSGo_noWS : ∀ (l : List Char) (o : Option (List Char)),
    o.all (fun cur => cur.all fun c => !isWS c) = true →
    ((splitWSGo l o).all fun w => w.all fun c => !isWS c) = true := by
  intro l
  induction l with
  | nil =>
    intro o h
    cases o with
    | none => simp [splitWSGo]
    | some cur => simpa [splitWSGo, List.all_reverse] using h
  | cons c cs ih =>
    intro o h
    cases o with
    | none =>
      cases hc : isWS c with
      | true => simpa [splitWSGo, hc] using ih none (by simp)
      | false => simpa [splitWSGo, hc] using ih (some [c]) (by simp [hc])
    | some cur =>
      cases hc : isWS c with
      | true =>
        have h1 := ih none (by simp)
        simp only [Option.all_some] at h
        simp [splitWSGo, hc, List.all_reverse, h, h1]
      | false =>
        simp only [Option.all_some] at h
        simpa [splitWSGo, hc] using ih (some (c :: cur)) (by simp [hc, h])

theorem groupWords_flatten : ∀ l : List Str, (groupWords l).flatten = l := by
  intro l
  induction l using groupWords.induct with
  | case1 => simp [groupWords]
  | case2 a₁ a₂ a₃ a₄ a₅ a₆ a₇ a₈ rest ih => simp [groupWords, ih]
  | case3 l h1 h2 => simp [groupWords]

theorem groupWords_sizes : ∀ l : List Str,
    ((groupWords l).all fun g => decide (1 ≤ g.length) && decide (g.length ≤ 8)) = true := by
  intro l
  induction l using groupWords.induct with
  | case1 => simp [groupWords]
  | case2 a₁ a₂ a₃ a₄ a₅ a₆ a₇ a₈ rest ih => simpa [groupWords] using ih
  | case3 l h1 h2 =>
    rcases l with _ | ⟨a₁, _ | ⟨a₂, _ | ⟨a₃, _ | ⟨a₄, _ | ⟨a₅, _ | ⟨a₆, _ | ⟨a₇, _ | ⟨a₈, rest⟩⟩⟩⟩⟩⟩⟩⟩
    · exact absurd rfl h1
    · simp [groupWords]
    · simp [groupWords]
    · simp [groupWords]
    · simp [groupWords]
    · simp [groupWords]
    · simp [groupWords]
    · simp [groupWords]
    · exact absurd rfl (h2 a₁ a₂ a₃ a₄ a₅ a₆ a₇ a₈ rest)

theorem groupWords_ne_nil : ∀ l : List Str, l ≠ [] → groupWords l ≠ [] := by
  intro l
  induction l using groupWords.induct with
  | case1 => intro h; exact absurd rfl h
  | case2 a₁ a₂ a₃ a₄ a₅ a₆ a₇ a₈ rest ih => intro _; simp [groupWords]
  | case3 l h1 h2 => intro h; simp [groupWords]

theorem joinSpace_cons_append (a : Str) (xs ys : List Str) (hy : ys ≠ []) :
    joinSpace ((a :: xs) ++ ys) = joinSpace (a :: xs) ++ ' ' :: joinSpace ys := by
  induction xs generalizing a with
  | nil =>
    cases ys with
    | nil => exact absurd rfl hy
    | cons b ys' => simp [joinSpace]
  | cons b xs' ih =>
    have h := ih b
    simp only [List.cons_append] at h ⊢
    simp only [joinSpace, h, List.cons_append, List.append_assoc]

theorem joinSpace_map_groupWords : ∀ l : List Str,
    joinSpace ((groupWords l).map joinSpace) = joinSpace l := by
  intro l
  induction l using groupWords.induct with
  | case1 => simp [groupWords, joinSpace]
  | case2 a₁ a₂ a₃ a₄ a₅ a₆ a₇ a₈ rest ih =>
    rcases rest with _ | ⟨r, rs⟩
    · simp [groupWords, joinSpace]
    · have hne : (groupWords (r :: rs)).map joinSpace ≠ [] := by
        have := groupWords_ne_nil (r :: rs) (by simp)
        simpa using this
      rcases hm : (groupWords (r :: rs)).map joinSpace with _ | ⟨m, ms⟩
      · exact absurd hm hne
      · rw [hm] at ih
        have hsplit := joinSpace_cons_append a₁ [a₂, a₃, a₄, a₅, a₆, a₇, a₈]
          (r :: rs) (by simp)
        simp only [List.cons_append, List.nil_append] at hsplit
        simp [groupWords, hm, joinSpace, ih, hsplit]
  | case3 l h1 h2 => simp [groupWords, joinSpace]

/-- C1 counterexample: the claim fails at the concrete empty input (and at the
input " a").  `splitIntoChunks ""` is the one-element sequence `[""]`, not the
empty sequence, and the empty field produced by the leading whitespace of " a"
is not discarded: the single chunk is `" a"`, not `"a"`. -/
theorem chunker_claim_cex :
    splitIntoChunks [] = [[]]
    ∧ decide (splitIntoChunks [] = ([] : List Str)) = false
    ∧ splitIntoChunks [' ', 'a'] = [[' ', 'a']]
    ∧ decide (splitIntoChunks [' ', 'a'] = [['a']]) = false := by decide

/-- C1 (amended): for every input string, `splitIntoChunks` splits on
whitespace runs — every produced token is whitespace-free — but keeps the
empty boundary tokens of the JavaScript split instead of discarding them; it
groups the token list, in order and with none skipped, into batches of at
least 1 and at most 8 tokens rejoined with single spaces; the empty input
yields the one-element chunk sequence containing the empty string, not the
empty sequence. -/
theorem chunker_amended (text : Str) :
    ((jsSplitWS text).all fun w => w.all fun c => !isWS c) = true
    ∧ (groupWords (jsSplitWS text)).flatten = jsSplitWS text
    ∧ ((groupWords (jsSplitWS text)).all fun g =>
        decide (1 ≤ g.length) && decide (g.length ≤ 8)) = true
    ∧ splitIntoChunks text = (groupWords (jsSplitWS text)).map joinSpace
    ∧ splitIntoChunks [] = [[]] :=
  ⟨splitWSGo_noWS text (some []) (by simp), groupWords_flatten _,
    groupWords_sizes _, rfl, by decide⟩

/-- C2 counterexample: the claim fails at the concrete input " a".  Rejoining
the produced chunks with single spaces gives `" a"` (the leading empty token
survives as a leading space), while the whitespace-normalized token sequence
of the input — `specNormalizedTokens`, following the spec's words — rejoins to
`"a"`. -/
theorem rejoin_normalized_cex :
    joinSpace (splitIntoChunks [' ', 'a']) = [' ', 'a']
    ∧ joinSpace (specNormalizedTokens [' ', 'a']) = ['a']
    ∧ decide (joinSpace (splitIntoChunks [' ', 'a'])
        = joinSpace (specNormalizedTokens [' ', 'a'])) = false := by decide

/-- C2 (amended): for every input string, rejoining the chunks produced by
`splitIntoChunks` with single spaces reproduces the full JavaScript-split
token sequence rejoined with single spaces — boundary empty tokens included,
so it equals the whitespace-normalized token sequence only in their absence —
and no chunk is built from more than 8 tokens. -/
theorem chunks_rejoin_amended (text : Str) :
    joinSpace (splitIntoChunks text) = joinSpace (jsSplitWS text)
    ∧ ((groupWords (jsSplitWS text)).all fun g => decide (g.length ≤ 8)) = true := by
  constructor
  · exact joinSpace_map_groupWords (jsSplitWS text)
  · have h := groupWords_sizes (jsSplitWS text)
    rw [List.all_eq_true] at h ⊢
    intro g hg
    have := h g hg
    simp only [Bool.and_eq_true, decide_eq_true_eq] at this
    simpa using this.2

/-- C10: for every input string, `splitIntoChunks` returns at least one chunk:
the JavaScript split never yields an empty array, so even the empty input
produces the single-element chunk list containing the empty string. -/
theorem splitIntoChunks_never_empty (text : Str) :
    1 ≤ (jsSplitWS text).length
    ∧ 1 ≤ (splitIntoChunks text).length
    ∧ splitIntoChunks [] = [[]] := by
  refine ⟨splitWSGo_length_pos text _, ?_, by decide⟩
  have hne : jsSplitWS text ≠ [] := by
    have := splitWSGo_length_pos text (some [])
    intro h
    rw [jsSplitWS] at h
    simp [h] at this
  have := groupWords_ne_nil (jsSplitWS text) hne
  rw [splitIntoChunks, List.length_map]
  exact Nat.one_le_iff_ne_zero.mpr (by simpa using this)

theorem speakLoopAux_halted (rest : List Str) (idx : Nat) :
    speakLoopAux rest true false idx = ([], idx) := by
  cases rest <;> simp [speakLoopAux]

theorem speakLoopAux_clean : ∀ (rest : List Str) (fII fRR : Bool) (idx : Nat),
    (fII && !fRR) = false →
    speakLoopAux rest fII fRR idx =
      (rest.flatMap fun c => [Ev.call c, Ev.resolve c], idx + rest.length) := by
  intro rest
  induction rest with
  | nil => intro fII fRR idx h; simp [speakLoopAux]
  | cons c rest' ih =>
    intro fII fRR idx h
    have hrec := ih fII fRR (idx + 1) h
    simp [speakLoopAux, h, hrec]
    omega

theorem speakLoopAux_index : ∀ (rest : List Str) (fII fRR : Bool) (idx : Nat),
    (speakLoopAux rest fII fRR idx).2
      = idx + countCalls (speakLoopAux rest fII fRR idx).1 := by
  intro rest
  induction rest with
  | nil => intro fII fRR idx; simp [speakLoopAux, countCalls]
  | cons c rest' ih =>
    intro fII fRR idx
    cases hg : fII && !fRR with
    | true => simp [speakLoopAux, hg, countCalls]
    | false =>
      have hrec := ih fII fRR (idx + 1)
      simp only [countCalls] at hrec ⊢
      simp [speakLoopAux, hg, List.countP_cons, isCallEv, hrec]
      omega

/-- C3 counterexample: the claim fails at a concrete reachable start state.
After an interruption whose run has finished (committed state: index at the
end, not speaking, interrupted set, resume not requested — the Speak control
is enabled again), clicking Speak issues zero `repeatMessage` calls for the
non-empty two-chunk sequence: `startSpeaking`'s flag reset commits only for
later renders, so the loop it invokes still froze `isInterrupted = true`,
`resumeRequested = false` and breaks at its first boundary check.  The click
only zeroes the index and clears the committed flags. -/
theorem speak_click_interrupted_idle_cex :
    startSpeaking [['a'], ['b']] ⟨2, false, true, false⟩
      = ([], ⟨0, false, false, false⟩)
    ∧ decide ((startSpeaking [['a'], ['b']] ⟨2, false, true, false⟩).1
        = [Ev.call ['a'], Ev.resolve ['a'], Ev.call ['b'], Ev.resolve ['b']])
      = false := by
  decide

/-- C3 (amended): for every non-empty chunk sequence, starting playback while
not speaking — provided the committed interrupted flag is clear or a resume
was requested at the click, as after any fresh utterance (whose `onChange`
clears the flags) — issues one `repeatMessage` call per chunk, strictly in
index order with none skipped or repeated, each call's resolution preceding
the next chunk's call: the trace is exactly `call c₀, resolve c₀, call c₁,
resolve c₁, …` over the whole sequence, and the run ends idle with the index
at the end.  From a committed interrupted-and-no-resume idle state the click
instead speaks nothing, per the counterexample. -/
theorem startSpeaking_speaks_all (chunks : List Str) (s : PB)
    (h1 : chunks ≠ []) (h2 : s.isSpeaking = false)
    (h3 : s.isInterrupted = false ∨ s.resumeRequested = true) :
    startSpeaking chunks s =
      (chunks.flatMap fun c => [Ev.call c, Ev.resolve c],
       ⟨chunks.length, false, false, false⟩) := by
  obtain ⟨i, sp, ii, rr⟩ := s
  simp only at h2 h3
  subst h2
  have hE : chunks.isEmpty = false := List.isEmpty_eq_false.mpr h1
  have hguard : (ii && !rr) = false := by
    rcases h3 with h | h <;> simp [h]
  have hclean := speakLoopAux_clean chunks ii rr 0 hguard
  simp [startSpeaking, hE, startReset, speakRemainingChunks, hclean]

/-- C3 witness at a concrete input: from the idle state with clear flags, a
two-chunk sequence is spoken in order, each resolution before the next
call. -/
theorem startSpeaking_speaks_all_witness :
    startSpeaking [['h', 'i'], ['y', 'o']] ⟨0, false, false, false⟩ =
      ([Ev.call ['h', 'i'], Ev.resolve ['h', 'i'],
        Ev.call ['y', 'o'], Ev.resolve ['y', 'o']],
       ⟨2, false, false, false⟩) :=
  startSpeaking_speaks_all [['h', 'i'], ['y', 'o']] ⟨0, false, false, false⟩
    (by decide) rfl (Or.inl rfl)

/-- C4: evaluation of the faithful model at the failing input.  The chunks
are ["a","b","c"], playback starts from the idle state, and the Interrupt
control is clicked while chunk 0's `repeatMessage` call is in flight.  The
second conjunct is the click itself, run against the then-committed state
(index 0, speaking, flags clear): its guard passes, it commits
`isInterrupted := true, resumeRequested := false` and emits the `interrupt()`
signal and the forwarded message.  The first conjunct is the run's trace: the
in-flight chunk 0 does resolve — that half of the claim is true of the code —
but the boundary check reads the loop's closure-frozen flags (cleared at
launch), which the click's commits cannot reach, so the loop never halts: the
calls for chunks 1 and 2 are issued all the same, against the claim's halting
half. -/
theorem interrupt_never_halts_loop :
    (startSpeaking [['a'], ['b'], ['c']] ⟨0, false, false, false⟩).1
      = [Ev.call ['a'], Ev.resolve ['a'], Ev.call ['b'], Ev.resolve ['b'],
         Ev.call ['c'], Ev.resolve ['c']]
    ∧ handleInterrupt ['x'] ⟨0, true, false, false⟩
      = (⟨0, true, true, false⟩, [ExtAct.interruptSig, ExtAct.sendMsg ['x']]) := by
  decide

/-- C5: evaluation of the faithful model at the failing input.  The chunks
are ["a","b"] and the committed state at the Resume click is index 1, not
speaking, interrupted, resume not requested.  The guard accepts;
`setResumeRequested(true); setIsInterrupted(false)` commit for later renders
— but the loop invoked synchronously froze this render's committed values
`isInterrupted = true`, `resumeRequested = false`, so its first boundary
check breaks before any call: the trace is empty, the index stays at 1, and
only the committed flags change.  Resume never continues playback, against
the claim. -/
theorem resume_speaks_nothing :
    resumeSpeaking [['a'], ['b']] ⟨1, false, true, false⟩
      = ([], ⟨1, false, false, false⟩)
    ∧ decide ((resumeSpeaking [['a'], ['b']] ⟨1, false, true, false⟩).1
        = [Ev.call ['b'], Ev.resolve ['b']]) = false := by
  decide

/-- C6: `resumeSpeaking` is a no-op — empty trace, state returned unchanged,
so no speak call and no playback-state change — whenever the interrupted flag
is false, or the speaking flag is true, or the chunk index has reached the
length of the chunk sequence. -/
theorem resumeSpeaking_noop (chunks : List Str) (s : PB)
    (h : s.isInterrupted = false ∨ s.isSpeaking = true
      ∨ chunks.length ≤ s.chunkIndex) :
    resumeSpeaking chunks s = ([], s) := by
  rcases h with h | h | h
  · simp [resumeSpeaking, h]
  · simp [resumeSpeaking, h]
  · simp [resumeSpeaking, decide_eq_true h]

/-- C6 witness at a concrete input: with the interrupted flag clear, resume
changes nothing. -/
theorem resumeSpeaking_noop_witness :
    resumeSpeaking [['a']] ⟨0, false, false, false⟩ =
      ([], ⟨0, false, false, false⟩) :=
  resumeSpeaking_noop [['a']] ⟨0, false, false, false⟩ (Or.inl rfl)

/-- C7: `handleInterrupt` returns the state unchanged with no external action
unless the speaking flag is true; when speaking it sets the interrupted flag,
clears the resume-requested flag, signals `interrupt()` to the avatar and
forwards the supplied message to the text chat (issued fire-and-forget: the
handler is synchronous and does not await it), touching neither the chunk
index nor the speaking flag itself. -/
theorem handleInterrupt_guarded (m : Str) (s : PB) :
    handleInterrupt m s =
      (if s.isSpeaking then
        ({ s with isInterrupted := true, resumeRequested := false },
         [ExtAct.interruptSig, ExtAct.sendMsg m])
      else (s, []))
    ∧ (handleInterrupt m s).1.chunkIndex = s.chunkIndex
    ∧ (handleInterrupt m s).1.isSpeaking = s.isSpeaking := by
  cases hs : s.isSpeaking <;> simp [handleInterrupt, interruptEffect, hs]

/-- C8: the chunk index — the genuinely shared `chunkIndexRef` — is
monotonically non-decreasing across any one run of the speak loop, whatever
flag values the loop's closure froze: the final index is the initial index
plus exactly the number of speak calls the run issued, so the loop only ever
increments it.  And it is reset to zero both by the reset `startSpeaking`
applies before launching a fresh playback and by the text input's `onChange`
handler when a new utterance is chunked. -/
theorem chunkIndex_monotone_and_resets (chunks : List Str) (fII fRR : Bool)
    (idx : Nat) (s : PB) (input : Str) (u : UIState) :
    (speakRemainingChunks chunks fII fRR idx).2
        = idx + countCalls (speakRemainingChunks chunks fII fRR idx).1
    ∧ idx ≤ (speakRemainingChunks chunks fII fRR idx).2
    ∧ (startReset s).chunkIndex = 0
    ∧ (onInputChange input u).pb.chunkIndex = 0 := by
  have h := speakLoopAux_index (chunks.drop idx) fII fRR idx
  refine ⟨?_, ?_, rfl, rfl⟩
  · simpa [speakRemainingChunks] using h
  · simp only [speakRemainingChunks]
    omega

/-- C9: a failed token fetch (network error) or an empty token body makes
`startSessionV2` abort before initializing the avatar — the run is exactly the
fetch followed by the logged error, with no avatar action — every run fetches
the token exactly once (no retry), and the avatar session is started exactly
when a non-empty token body was obtained. -/
theorem token_failure_aborts (fr : FetchResult) (v : Bool) :
    startSessionV2 FetchResult.networkError v
        = [SessAct.fetchToken, SessAct.logError]
    ∧ startSessionV2 (FetchResult.ok []) v
        = [SessAct.fetchToken, SessAct.logError]
    ∧ (startSessionV2 fr v).countP isFetchAct = 1
    ∧ sessionStarted (startSessionV2 fr v)
        = (match fr with
           | FetchResult.networkError => false
           | FetchResult.ok token => !token.isEmpty) := by
  refine ⟨by simp [startSessionV2], by simp [startSessionV2], ?_, ?_⟩
  · rcases fr with _ | token
    · simp [startSessionV2, List.countP_cons, isFetchAct]
    · rcases token with _ | ⟨c, cs⟩
      · simp [startSessionV2, List.countP_cons, isFetchAct]
      · cases v <;>
          simp [startSessionV2, List.countP_cons, List.countP_append, isFetchAct]
  · rcases fr with _ | token
    · simp [startSessionV2, sessionStarted, isStartAvatarAct]
    · rcases token with _ | ⟨c, cs⟩
      · simp [startSessionV2, sessionStarted, isStartAvatarAct]
      · cases v <;>
          simp [startSessionV2, sessionStarted, List.any_append, isStartAvatarAct]
